import Mathlib

/-!
Verification development for the Mini-C compiler (mccomp.cpp).

This file shallowly embeds the parts of the compiler that the checked
properties speak about: the type lattice and conversion emission
(isNarrowingConversion / castToType and their call sites), the
instruction-level lowering of logical operators, array subscripts and
zero initialisation, the basic-block builder discipline of function and
if lowering, the LL(2) expression parser, the extern-declaration parser,
the driver's missing-main check, and the hand-written lexer.  Each
definition is transcribed from the corresponding C++ function; theorems
at the end settle the stated properties.
-/

namespace MiniC

/-! ## Types and IR atoms

`Ty` mirrors the LLVM scalar types the compiler manipulates
(`Type::getInt32Ty`, `getFloatTy`, `getInt1Ty`, `getDoubleTy`,
`getVoidTy`); `ptr` stands for the opaque pointer type used for decayed
array parameters (getTypeFromString on a string containing a star). -/

inductive Ty
| i32
| f32
| i1
| f64
| void
| ptr
deriving DecidableEq, Repr

/-- Constants the lowering materialises: 32-bit integers, 1-bit
integers, and the floating zero used by zero initialisation and
synthesised returns (the only float constant these code paths create). -/
inductive Const
| ci32 (n : Int)
| ci1 (b : Bool)
| cf32zero
deriving DecidableEq, Repr

/-- Instructions, at the granularity the properties need: conversion
instructions emitted by castToType, calls, the bitwise and/or/not the
logical operators lower to, allocas and constant stores from
declarations, and the block terminators. -/
inductive Instr
| allocaI (t : Ty)
| storeC (c : Const)
| call (f : String)
| sitofp
| zextI
| fptosi
| fptrunc
| fpext
| icmpNE0
| fcmpONE0
| andI
| orI
| notI
| br (target : String)
| condbr (thenB elseB : String)
| retC (c : Const)
| retVoid
deriving DecidableEq, Repr

/-- Terminator test, as LLVM classifies them (ret / br / condbr). -/
def Instr.isTerminator : Instr → Bool
| .br _ => true
| .condbr _ _ => true
| .retC _ => true
| .retVoid => true
| _ => false

/-! ## Conversion checking and emission (mccomp.cpp 3278-3415) -/

/-- Transcribed from isNarrowingConversion: float→int, int→bool,
double→float, float→bool, bool→int and bool→float all count as
narrowing; identical types never do. -/
def isNarrowingConversion (f t : Ty) : Bool :=
  if f = t then false
  else if f = .f32 && t = .i32 then true
  else if f = .i32 && t = .i1 then true
  else if f = .f64 && t = .f32 then true
  else if f = .f32 && t = .i1 then true
  else if f = .i1 && t = .i32 then true
  else if f = .i1 && t = .f32 then true
  else false

/-- Transcribed from castToType, recording the conversion instructions
it would emit.  `none` models the nullptr return after logging a Type
error.  The narrowing check runs first when narrowing is disallowed;
then the widening conversions; then the narrowing conversions guarded by
allowNarrowing; then the unsupported-conversion error. -/
def castToType (src dst : Ty) (allowNarrowing : Bool) : Option (List Instr) :=
  if src = dst then some []
  else if !allowNarrowing && isNarrowingConversion src dst then none
  else if src = .i32 && dst = .f32 then some [.sitofp]
  else if src = .i1 && dst = .i32 then some [.zextI]
  else if src = .i1 && dst = .f32 then some [.zextI, .sitofp]
  else if src = .f64 && dst = .f32 then some [.fptrunc]
  else if src = .f32 && dst = .f64 then some [.fpext]
  else if allowNarrowing && src = .f32 && dst = .i32 then some [.fptosi]
  else if allowNarrowing && src = .i32 && dst = .i1 then some [.icmpNE0]
  else if allowNarrowing && (src = .f32 || src = .f64) && dst = .i1 then some [.fcmpONE0]
  else none

/-! ## The three implicit-conversion sites (claim C2) -/

/-- AssignmentExprAST::codegen (3820-3837): when the RHS type differs
from the variable type it calls castToType with allowNarrowing = false;
on failure it logs and emits no store. -/
def assignConvert (rhs var : Ty) : Option (List Instr) :=
  if rhs = var then some []
  else castToType rhs var false

/-- ReturnAST::codegen (4037-4055): on a type mismatch it first rejects
narrowing conversions outright, then applies castToType with
allowNarrowing = false. -/
def returnConvert (retv fnty : Ty) : Option (List Instr) :=
  if retv = fnty then some []
  else if isNarrowingConversion retv fnty then none
  else castToType retv fnty false

/-- CallExprAST::codegen (3882-3900): per argument, on a type mismatch
it rejects narrowing conversions, then applies castToType with
allowNarrowing = false. -/
def argConvert (actual expected : Ty) : Option (List Instr) :=
  if actual = expected then some []
  else if isNarrowingConversion actual expected then none
  else castToType actual expected false

/-- The spec's widening chain bool → int → float, written from the
spec's words for comparison with the code's behaviour: the target is
reachable from the source along the chain. -/
def widenReachable (src tgt : Ty) : Bool :=
  (src = .i1 && (tgt = .i32 || tgt = .f32)) || (src = .i32 && tgt = .f32)

/-- The scalar value types of Mini-C expression positions. -/
def Ty.scalar3 (t : Ty) : Bool :=
  t = .i32 || t = .f32 || t = .i1

/-! ## Coercion to bool (claim C3) -/

/-- Condition lowering in IfExprAST::codegen (3921) and
WhileExprAST::codegen (3981): castToType to i1 with the default
allowNarrowing = true. -/
def condCoerce (src : Ty) : Option (List Instr) :=
  castToType src .i1 true

/-- Operand lowering for the logical operators: BinaryExprAST::codegen
passes allowNarrowing = false for both operands of && (3715-3716) and
|| (3723-3724), and UnaryExprAST::codegen does the same for the operand
of ! (3764). -/
def logicalOperandCoerce (src : Ty) : Option (List Instr) :=
  castToType src .i1 false

/-! ## Expression lowering for && and || (claim C1) -/

/-- Expressions, restricted to what the short-circuit property needs:
literals, calls (with the callee resolved through a signature map), and
the two logical operators. -/
inductive SExpr
| boolLit (b : Bool)
| intLit (n : Int)
| callE (f : String)
| andE (l r : SExpr)
| orE (l r : SExpr)
deriving DecidableEq, Repr

/-- Expression codegen as BinaryExprAST::codegen performs it for && and
||: both operands are lowered first (3483-3484), then each is cast to
i1 with allowNarrowing = false, then a single bitwise and / or is
emitted (3713-3727).  No basic blocks are created and no branch is
emitted anywhere in this function.  Returns the value type and the
instruction sequence appended to the current block. -/
def exprCodegen (sig : String → Option Ty) : SExpr → Option (Ty × List Instr)
| .boolLit _ => some (.i1, [])
| .intLit _ => some (.i32, [])
| .callE f =>
  match sig f with
  | some rt => some (rt, [.call f])
  | none => none
| .andE l r =>
  match exprCodegen sig l, exprCodegen sig r with
  | some (lt, li), some (rt, ri) =>
    match castToType lt .i1 false, castToType rt .i1 false with
    | some lc, some rc => some (.i1, li ++ ri ++ lc ++ rc ++ [.andI])
    | _, _ => none
  | _, _ => none
| .orE l r =>
  match exprCodegen sig l, exprCodegen sig r with
  | some (lt, li), some (rt, ri) =>
    match castToType lt .i1 false, castToType rt .i1 false with
    | some lc, some rc => some (.i1, li ++ ri ++ lc ++ rc ++ [.orI])
    | _, _ => none
  | _, _ => none

/-- A module with a single extern `bool side_effect()`, the observable
collaborator of the short-circuit scenario. -/
def sigSideEffect : String → Option Ty :=
  fun f => if f = "side_effect" then some Ty.i1 else none

/-! ## Array subscript index lowering (claim C6) -/

/-- Index handling in ArrayAccessAST::codegen (4518-4540), the read
path: a float index is rejected with a Type error (none), a bool index
is zero-extended to i32, an i32 index passes through, anything else is
rejected. -/
def readIndexLower : Ty → Option (List Instr)
| .f32 => none
| .i1 => some [.zextI]
| .i32 => some []
| _ => none

/-- Index handling in ArrayAssignmentExprAST::codegen (4646-4661), the
assignment-target path: a float index is converted with fptosi, a bool
index is zero-extended, an i32 index passes through, anything else is
rejected. -/
def assignIndexLower : Ty → Option (List Instr)
| .f32 => some [.fptosi]
| .i1 => some [.zextI]
| .i32 => some []
| _ => none

/-! ## Zero initialisation of scalar declarations (claim C10) -/

/-- Local scalar declaration lowering in BlockAST::codegen (4129-4141):
a fresh entry-block alloca, then a store of the zero constant of the
declared type for int, float and bool. -/
def localScalarDeclLower (ty : Ty) : List Instr :=
  Instr.allocaI ty ::
  (if ty = .i32 then [Instr.storeC (.ci32 0)]
   else if ty = .f32 then [Instr.storeC .cf32zero]
   else if ty = .i1 then [Instr.storeC (.ci1 false)]
   else [])

/-- Global scalar declaration in GlobVarDeclAST::codegen (4334-4345):
the zero initializer chosen for the declared type; unsupported types are
an error (none). -/
def globalScalarInit (ty : Ty) : Option Const :=
  if ty = .i32 then some (.ci32 0)
  else if ty = .f32 then some .cf32zero
  else if ty = .i1 then some (.ci1 false)
  else none

/-- The zero constant of a scalar type, for stating the property. -/
def zeroConst : Ty → Option Const
| .i32 => some (.ci32 0)
| .f32 => some .cf32zero
| .i1 => some (.ci1 false)
| _ => none

/-! ## Driver end-game (claim C8) -/

/-- Diagnostic classes of the error log. -/
inductive ErrClass
| lexical
| syntax0
| typeE
| scope
| semantic
deriving DecidableEq, Repr

/-- The tail of main (4807-4846): if the parse left errors, print them
and exit 1 without writing output.ll; otherwise if no function named
main exists, log exactly one Semantic error, print, and exit 1 without
writing output.ll; otherwise write output.ll and exit 0.  Returns the
final error log, the exit code, and whether output.ll was written. -/
def driverAfterParse (parseErrors : List ErrClass) (funcs : List String) :
    List ErrClass × Nat × Bool :=
  if parseErrors ≠ [] then (parseErrors, 1, false)
  else if funcs.contains "main" then ([], 0, true)
  else ([ErrClass.semantic], 1, false)

/-! ## Basic-block builder and statement lowering (claim C5)

The builder mirrors the llvm IRBuilder surface the lowering uses:
an insertion point naming the current block, emission appending at the
end of that block unconditionally (the real builder does not refuse to
insert after a terminator), fresh-name creation for then/else/ifcont
blocks, and late attachment of the else and merge blocks exactly as
IfExprAST::codegen does. -/

structure MBlock where
  name : String
  instrs : List Instr
deriving DecidableEq, Repr

structure Builder where
  blocks : List MBlock
  cur : String
  fresh : Nat
deriving DecidableEq, Repr

/-- Append an instruction at the end of the insertion block. -/
def Builder.emit (b : Builder) (i : Instr) : Builder :=
  { b with blocks :=
      b.blocks.map (fun bl =>
        if bl.name = b.cur then { bl with instrs := bl.instrs ++ [i] } else bl) }

/-- BasicBlock::Create: reserve a fresh name (then0, else1, ifcont2, ...). -/
def Builder.newBlockName (b : Builder) (base : String) : String × Builder :=
  (base ++ toString b.fresh, { b with fresh := b.fresh + 1 })

/-- Attach a created block at the end of the function. -/
def Builder.attach (b : Builder) (n : String) : Builder :=
  { b with blocks := b.blocks ++ [⟨n, []⟩] }

/-- SetInsertPoint. -/
def Builder.setInsert (b : Builder) (n : String) : Builder :=
  { b with cur := n }

/-- GetInsertBlock()->getTerminator(): non-null iff the block's last
instruction is a terminator. -/
def Builder.curHasTerminator (b : Builder) : Bool :=
  match b.blocks.find? (fun bl => bl.name = b.cur) with
  | some bl =>
    match bl.instrs.getLast? with
    | some i => i.isTerminator
    | none => false
  | none => false

/-- Statements, restricted to what the block-termination property
needs: returns of integer literals, void returns, and if with a boolean
literal condition (the condition value is an i1 constant, so the
coercion to bool in IfExprAST::codegen emits nothing for it). -/
inductive MStmt
| sret (n : Int)
| sretVoid
| sif (cond : Bool) (thenB : List MStmt) (elseB : Option (List MStmt))
deriving Repr

mutual

/-- ReturnAST::codegen (4003-4059) for the statement forms above, and
IfExprAST::codegen (3915-3960).  In the if case, note the unguarded
CreateBr to the merge block after the then (3941) and else (3951)
bodies: it is appended even when the body already ended in a
terminator.  In the return case the conversion instructions (if any)
are emitted before the ret; the ret records the source literal. -/
def stmtCodegen (retTy : Ty) : MStmt → Builder → Option Builder
| .sret n, b =>
  if retTy = .void then none
  else
    match returnConvert .i32 retTy with
    | some cs => some ((cs.foldl Builder.emit b).emit (.retC (.ci32 n)))
    | none => none
| .sretVoid, b =>
  if retTy = .void then some (b.emit .retVoid) else none
| .sif _ thenB elseB, b =>
  let (tn, b1) := b.newBlockName "then"
  let (en, b2) := b1.newBlockName "else"
  let (mn, b3) := b2.newBlockName "ifcont"
  let b4 := b3.attach tn
  let b5 := b4.emit (if elseB.isSome then .condbr tn en else .condbr tn mn)
  let b6 := b5.setInsert tn
  match stmtsCodegen retTy thenB b6 with
  | none => none
  | some b7 =>
    let b8 := b7.emit (.br mn)
    match elseB with
    | none => some ((b8.attach mn).setInsert mn)
    | some eb =>
      let b9 := (b8.attach en).setInsert en
      match stmtsCodegen retTy eb b9 with
      | none => none
      | some b10 =>
        let b11 := b10.emit (.br mn)
        some ((b11.attach mn).setInsert mn)

/-- The statement loop of BlockAST::codegen (4146-4154): lower each
statement in order, aborting on the first failure. -/
def stmtsCodegen (retTy : Ty) : List MStmt → Builder → Option Builder
| [], b => some b
| s :: ss, b =>
  match stmtCodegen retTy s b with
  | some b2 => stmtsCodegen retTy ss b2
  | none => none

end

/-- FunctionDeclAST::codegen (4197-4252) for a function whose
parameters play no role: create the entry block, lower the body, and if
the insertion block lacks a terminator synthesise the return — void
return for void, else a zero constant of the declared return type.
Returns the emitted blocks. -/
def functionCodegen (retTy : Ty) (body : List MStmt) : Option (List MBlock) :=
  let b0 : Builder := { blocks := [⟨"entry", []⟩], cur := "entry", fresh := 0 }
  match stmtsCodegen retTy body b0 with
  | none => none
  | some b =>
    let b2 :=
      if b.curHasTerminator then b
      else if retTy = .void then b.emit .retVoid
      else if retTy = .i32 then b.emit (.retC (.ci32 0))
      else if retTy = .f32 then b.emit (.retC .cf32zero)
      else if retTy = .i1 then b.emit (.retC (.ci1 false))
      else b
    some b2.blocks

/-- A block ends in exactly one terminator: its last instruction is a
terminator and no other instruction is one (so nothing follows a
terminator). -/
def blockWellTerminated (is : List Instr) : Bool :=
  (is.countP (fun i => i.isTerminator)) = 1 &&
  (match is.getLast? with
   | some i => i.isTerminator
   | none => false)

def funcWellTerminated (blocks : List MBlock) : Bool :=
  blocks.all (fun bl => blockWellTerminated bl.instrs)

/-! ## Parser tokens and AST (claims C4, C7) -/

inductive Tok
| ident (s : String)
| intLit (n : Int)
| floatLit
| boolLit (b : Bool)
| assign
| plus
| minus
| star
| slashT
| percent
| ltT
| leT
| gtT
| geT
| eqT
| neT
| andand
| oror
| bang
| lpar
| rpar
| lbox
| rbox
| comma
| semi
| externT
| intT
| floatT
| boolT
| voidT
| lbra
| rbra
| ifT
| elseT
| whileT
| returnT
| eofT
deriving DecidableEq, Repr

inductive Ast
| intLit (n : Int)
| floatLit
| boolLit (b : Bool)
| var (x : String)
| callA (f : String) (args : List Ast)
| unary (op : String) (e : Ast)
| binary (op : String) (l r : Ast)
| arrayAccess (x : String) (idxs : List Ast)
| assignA (x : String) (e : Ast)
| arrayAssign (x : String) (idxs : List Ast) (e : Ast)
deriving Repr

/-- AssignmentExprAST::isAssignment / the identifier-assignment node
test used by the property. -/
def Ast.isIdentAssign : Ast → Bool
| .assignA _ _ => true
| _ => false

/-- The operator sets of the precedence ladder (2216-2238), one level
per ParseBinaryExpr instantiation: 0 = or, 1 = and, 2 = equality,
3 = relational, 4 = additive, 5 = multiplicative. -/
def levelOps : Nat → Tok → Option String
| 0, t => if t = .oror then some "||" else none
| 1, t => if t = .andand then some "&&" else none
| 2, t =>
  if t = .eqT then some "==" else if t = .neT then some "!=" else none
| 3, t =>
  if t = .ltT then some "<"
  else if t = .leT then some "<="
  else if t = .gtT then some ">"
  else if t = .geT then some ">=" else none
| 4, t =>
  if t = .plus then some "+" else if t = .minus then some "-" else none
| _, t =>
  if t = .star then some "*"
  else if t = .slashT then some "/"
  else if t = .percent then some "%" else none

mutual

/-- ParseExper (2249-2308): if the current token is IDENT and the
peeked token is ASSIGN, parse an identifier-assignment; otherwise parse
an or-expression, and if the result is an array access with the current
token ASSIGN, promote it to an array assignment.  Fuel bounds the
recursion; 0 fuel is a failed parse. -/
def parseExper : Nat → List Tok → Option (Ast × List Tok)
| 0, _ => none
| fuel+1, ts =>
  match ts with
  | .ident x :: .assign :: rest =>
    match parseExper fuel rest with
    | some (rhs, rest1) => some (.assignA x rhs, rest1)
    | none => none
  | _ =>
    match parseLevel fuel 0 ts with
    | some (lhs, rest) =>
      match lhs, rest with
      | .arrayAccess a idxs, .assign :: rest1 =>
        match parseExper fuel rest1 with
        | some (rhs, rest2) => some (.arrayAssign a idxs rhs, rest2)
        | none => none
      | _, _ => some (lhs, rest)
    | none => none

/-- One level of ParseBinaryExpr (2194-2214): parse the next-higher
level, then loop on that level's operators.  Level 5's higher parser is
ParseUnaryExpr. -/
def parseLevel : Nat → Nat → List Tok → Option (Ast × List Tok)
| 0, _, _ => none
| fuel+1, lvl, ts =>
  match (if 5 ≤ lvl then parseUnaryExpr fuel ts else parseLevel fuel (lvl+1) ts) with
  | some (lhs, rest) => levelLoop fuel lvl lhs rest
  | none => none

/-- The while-loop of ParseBinaryExpr: while the current token is one
of this level's operators, consume it, parse the next-higher level as
the right operand, and left-associate. -/
def levelLoop : Nat → Nat → Ast → List Tok → Option (Ast × List Tok)
| 0, _, _, _ => none
| fuel+1, lvl, lhs, ts =>
  match ts with
  | t :: rest =>
    match levelOps lvl t with
    | some op =>
      match (if 5 ≤ lvl then parseUnaryExpr fuel rest else parseLevel fuel (lvl+1) rest) with
      | some (rhs, rest1) => levelLoop fuel lvl (.binary op lhs rhs) rest1
      | none => none
    | none => some (lhs, ts)
  | [] => some (lhs, ts)

/-- ParseUnaryExpr (2168-2192). -/
def parseUnaryExpr : Nat → List Tok → Option (Ast × List Tok)
| 0, _ => none
| fuel+1, ts =>
  match ts with
  | .minus :: rest =>
    match parseUnaryExpr fuel rest with
    | some (e, rest1) => some (.unary "-" e, rest1)
    | none => none
  | .bang :: rest =>
    match parseUnaryExpr fuel rest with
    | some (e, rest1) => some (.unary "!" e, rest1)
    | none => none
  | _ => parsePrimaryExpr fuel ts

/-- ParsePrimaryExpr (2103-2163): parenthesised expression, call,
array access, variable, or literal. -/
def parsePrimaryExpr : Nat → List Tok → Option (Ast × List Tok)
| 0, _ => none
| fuel+1, ts =>
  match ts with
  | .lpar :: rest =>
    match parseExper fuel rest with
    | some (e, .rpar :: rest1) => some (e, rest1)
    | _ => none
  | .ident x :: .lpar :: rest =>
    match parseCallArgs fuel rest with
    | some (args, .rpar :: rest1) => some (.callA x args, rest1)
    | _ => none
  | .ident x :: .lbox :: rest => parseArrayAcc fuel x (.lbox :: rest)
  | .ident x :: rest => some (.var x, rest)
  | .intLit n :: rest => some (.intLit n, rest)
  | .floatLit :: rest => some (.floatLit, rest)
  | .boolLit bv :: rest => some (.boolLit bv, rest)
  | _ => none

/-- ParseFunctionCall (2066-2096): empty list when the current token is
RPAR (left for the caller to consume), else first argument then the
comma loop. -/
def parseCallArgs : Nat → List Tok → Option (List Ast × List Tok)
| 0, _ => none
| fuel+1, ts =>
  match ts with
  | .rpar :: _ => some ([], ts)
  | _ =>
    match parseExper fuel ts with
    | some (a, rest) => parseArgsLoop fuel [a] rest
    | none => none

def parseArgsLoop : Nat → List Ast → List Tok → Option (List Ast × List Tok)
| 0, _, _ => none
| fuel+1, acc, ts =>
  match ts with
  | .comma :: rest =>
    match parseExper fuel rest with
    | some (a, rest1) => parseArgsLoop fuel (acc ++ [a]) rest1
    | none => none
  | _ => some (acc, ts)

/-- ParseArrayAccess (2011-2040): a mandatory first subscript, then the
optional second and third. -/
def parseArrayAcc : Nat → String → List Tok → Option (Ast × List Tok)
| 0, _, _ => none
| fuel+1, x, ts =>
  match ts with
  | .lbox :: rest =>
    match parseExper fuel rest with
    | some (e1, .rbox :: rest1) =>
      match parseArrayAccCont fuel rest1 with
      | some (more, rest2) => some (.arrayAccess x (e1 :: more), rest2)
      | none => none
    | _ => none
  | _ => none

/-- ParseArrayAccessCont (1985-2007): optional second subscript. -/
def parseArrayAccCont : Nat → List Tok → Option (List Ast × List Tok)
| 0, _ => none
| fuel+1, ts =>
  match ts with
  | .lbox :: rest =>
    match parseExper fuel rest with
    | some (e2, .rbox :: rest1) =>
      match parseArrayAccCont2 fuel rest1 with
      | some (more, rest2) => some (e2 :: more, rest2)
      | none => none
    | _ => none
  | _ => some ([], ts)

/-- ParseArrayAccessCont2 (1954-1981): optional third subscript; a
fourth dimension is rejected. -/
def parseArrayAccCont2 : Nat → List Tok → Option (List Ast × List Tok)
| 0, _ => none
| fuel+1, ts =>
  match ts with
  | .lbox :: rest =>
    match parseExper fuel rest with
    | some (e3, .rbox :: rest1) =>
      match rest1 with
      | .lbox :: _ => none
      | _ => some ([e3], rest1)
    | _ => none
  | _ => some ([], ts)

end

/-! ## Extern-declaration parsing (claim C4) -/

structure Param where
  name : String
  ty : String
deriving DecidableEq, Repr

structure Proto where
  name : String
  retTy : String
  params : List Param
deriving DecidableEq, Repr

/-- CurTok.lexeme for the type keywords (ParseParam reads the lexeme of
the type token). -/
def typeLexeme : Tok → String
| .intT => "int"
| .floatT => "float"
| .boolT => "bool"
| .voidT => "void"
| _ => ""

/-- The bracket loop of ParseParam (1787-1801): each '[' may carry an
INT_LIT size and must be closed by ']'.  Errors return no dimensions
but keep the position the source parser reached. -/
def parseParamDims : Nat → List Tok → Option (List Int) × List Tok
| 0, ts => (none, ts)
| fuel+1, ts =>
  match ts with
  | .lbox :: .intLit n :: .rbox :: rest =>
    match parseParamDims fuel rest with
    | (some ds, rest1) => (some (n :: ds), rest1)
    | (none, rest1) => (none, rest1)
  | .lbox :: .rbox :: rest => parseParamDims fuel rest
  | .lbox :: rest => (none, rest)
  | _ => (some [], ts)

/-- The pointer-type string ParseParam builds for an array parameter
(1806-1813): base type plus a star, then every dimension after the
first. -/
def paramTypeString (base : String) (dims : List Int) : String :=
  if dims.isEmpty then base
  else (dims.drop 1).foldl (fun s d => s ++ "[" ++ toString d ++ "]") (base ++ "*")

/-- ParseParam (1776-1822): eat the type token, require an identifier,
then the optional bracket list.  A failed parse still reports how far
the token stream was consumed. -/
def parseParam : Nat → List Tok → Option Param × List Tok
| 0, ts => (none, ts)
| fuel+1, ts =>
  match ts with
  | tyTok :: .ident name :: rest =>
    match parseParamDims fuel rest with
    | (some dims, rest1) =>
      (some ⟨name, paramTypeString (typeLexeme tyTok) dims⟩, rest1)
    | (none, rest1) => (none, rest1)
  | _ :: rest => (none, rest)
  | [] => (none, [])

/-- ParseParamListPrime (1749-1772): a comma continues the list; a
failed ParseParam drops the partial list. -/
def parseParamListPrime : Nat → List Tok → List Param × List Tok
| 0, ts => ([], ts)
| fuel+1, ts =>
  match ts with
  | .comma :: rest =>
    match parseParam fuel rest with
    | (some p, rest1) =>
      match parseParamListPrime fuel rest1 with
      | (ps, rest2) => (p :: ps, rest2)
    | (none, rest1) => ([], rest1)
  | _ => ([], ts)

/-- ParseParamList (1825-1838). -/
def parseParamList (fuel : Nat) (ts : List Tok) : List Param × List Tok :=
  match parseParam fuel ts with
  | (some p, rest) =>
    match parseParamListPrime fuel rest with
    | (ps, rest1) => (p :: ps, rest1)
  | (none, rest) => ([], rest)

/-- ParseParams (1842-1875): a type keyword starts a parameter list;
"void" alone is consumed (with a check that ')' follows); ')' is the
empty production; anything else logs an error.  In every non-list case
the returned vector is empty. -/
def parseParams (fuel : Nat) (ts : List Tok) : List Param × List Tok :=
  match ts with
  | t :: rest =>
    if t = .intT || t = .floatT || t = .boolT then parseParamList fuel ts
    else if t = .voidT then ([], rest)
    else ([], ts)
  | [] => ([], [])

/-- ParseExtern (2891-2946), renamed for Lean: after "extern", a type
keyword, an identifier and '(', the parameters are parsed — and if the
returned vector is empty the whole production returns no prototype
(before even looking at the closing ')').  Otherwise ')' and ';' close
the declaration and the prototype is built. -/
def parseExternDecl (fuel : Nat) (ts : List Tok) : Option Proto :=
  match ts with
  | .externT :: ty :: .ident name :: .lpar :: rest =>
    if ty = .voidT || ty = .intT || ty = .floatT || ty = .boolT then
      match parseParams fuel rest with
      | (ps, rest1) =>
        if ps.length = 0 then none
        else
          match rest1 with
          | .rpar :: .semi :: _ => some ⟨name, typeLexeme ty, ps⟩
          | _ => none
    else none
  | _ => none

/-! ## The lexer (claim C9), gettok at mccomp.cpp 653-797

The state is the static LastChar (none models the EOF sentinel from
getc) and the remaining input.  Line and column counters are orthogonal
bookkeeping the property does not mention and are not tracked.  getc
pops the next byte, yielding none at end of input. -/

/-- Token kinds, mirroring the TOKEN_TYPE enum: keywords, literals,
operators, punctuation, the distinguished EOF token, and `chTok c` for
the fallthrough "return the character as its ascii value". -/
inductive TokType
| identT
| assignT
| lbraT
| rbraT
| lparT
| rparT
| scT
| commaT
| intKw
| voidKw
| floatKw
| boolKw
| externKw
| ifKw
| elseKw
| whileKw
| returnKw
| intLitT
| floatLitT
| boolLitT
| notOp
| andOp
| orOp
| eqOp
| neOp
| leOp
| ltOp
| geOp
| gtOp
| divOp
| eofTok
| chTok (c : Char)
deriving DecidableEq, Repr

structure TokenR where
  type : TokType
  lexeme : String
deriving DecidableEq, Repr

structure LexState where
  lastChar : Option Char
  input : List Char
deriving DecidableEq, Repr

/-- C isspace on the default locale (space, tab, newline, vertical tab,
form feed, carriage return); EOF is not a space. -/
def isSpaceO : Option Char → Bool
| some c => c = ' ' || c = '\t' || c = '\n' || c = '\x0b' || c = '\x0c' || c = '\r'
| none => false

def isAlphaCh (c : Char) : Bool :=
  ('a' ≤ c && c ≤ 'z') || ('A' ≤ c && c ≤ 'Z')

def isDigitCh (c : Char) : Bool :=
  '0' ≤ c && c ≤ '9'

def isIdentContCh (c : Char) : Bool :=
  isAlphaCh c || isDigitCh c || c = '_'

/-- getc, on the remaining input. -/
def getcS : List Char → Option Char × List Char
| [] => (none, [])
| h :: t => (some h, t)

/-- The whitespace-skipping loop (659-666): while LastChar is a space,
LastChar = getc. -/
def skipSpaces : Option Char → List Char → Option Char × List Char
| c, [] => if isSpaceO c then (none, []) else (c, [])
| c, h :: t => if isSpaceO c then skipSpaces (some h) t else (c, h :: t)

/-- A read-while loop as in the identifier and number scans: keep
appending LastChar = getc while the predicate holds; the failing
character stays in LastChar. -/
def lexWhile (p : Char → Bool) : String → List Char → String × Option Char × List Char
| acc, [] => (acc, none, [])
| acc, h :: t => if p h then lexWhile p (acc.push h) t else (acc, some h, t)

/-- The keyword table (678-686): exact identifier matches are
re-classified; true and false become BOOL_LIT. -/
def keywordType (s : String) : TokType :=
  if s = "int" then .intKw
  else if s = "bool" then .boolKw
  else if s = "float" then .floatKw
  else if s = "void" then .voidKw
  else if s = "extern" then .externKw
  else if s = "if" then .ifKw
  else if s = "else" then .elseKw
  else if s = "while" then .whileKw
  else if s = "return" then .returnKw
  else if s = "true" then .boolLitT
  else if s = "false" then .boolLitT
  else .identT

/-- The comment loop (774-777): do LastChar = getc while LastChar is
neither EOF nor a newline. -/
def skipComment : List Char → Option Char × List Char
| [] => (none, [])
| h :: t => if h = '\n' || h = '\r' then (some h, t) else skipComment t

/-- handleSingleChar (703-707). -/
def singleTok (c : Char) (tt : TokType) (inp : List Char) : TokenR × LexState :=
  match getcS inp with
  | (n1, inp1) => (⟨tt, String.singleton c⟩, ⟨n1, inp1⟩)

/-- handleTwoChar (752-762). -/
def twoCharTok (second : Char) (twoLex : String) (twoT : TokType)
    (oneLex : String) (oneT : TokType) (inp : List Char) : TokenR × LexState :=
  match getcS inp with
  | (n1, inp1) =>
    if n1 = some second then
      match getcS inp1 with
      | (n2, inp2) => (⟨twoT, twoLex⟩, ⟨n2, inp2⟩)
    else (⟨oneT, oneLex⟩, ⟨n1, inp1⟩)

/-- Support for the termination of gettok: skipping spaces never grows
the remaining input. -/
theorem skipSpaces_input_le (c : Option Char) (i : List Char) :
    (skipSpaces c i).2.length ≤ i.length := by
  induction i generalizing c with
  | nil => simp [skipSpaces]; split <;> simp
  | cons h t ih =>
    simp only [skipSpaces]
    split
    · exact le_trans (ih (some h)) (Nat.le_succ _)
    · simp

/-- Support for the termination of gettok: when the comment loop stops
at a newline it has consumed at least that newline. -/
theorem skipComment_newline_lt (i : List Char) (nl : Char) (rest : List Char)
    (h : skipComment i = (some nl, rest)) : rest.length < i.length := by
  induction i with
  | nil => simp [skipComment] at h
  | cons hd t ih =>
    simp only [skipComment] at h
    split at h
    · cases h; simp
    · exact Nat.lt_trans (ih h) (Nat.lt_succ_self _)

/-- gettok (653-797).  The branches appear in source order: whitespace
skipping; identifier/keyword; '='; single-character punctuation;
numeric literals; the two-character operator family; '/' as comment or
division, a comment ending at a newline restarting the scan; end of
input, never consumed past; and finally any other character returned as
itself.  For c = none (EOF) every guard below fails and the source
reaches the EOF branch, so it is matched first. -/
def gettok (st : LexState) : TokenR × LexState :=
  match h1 : skipSpaces st.lastChar st.input with
  | (none, inp) => (⟨.eofTok, "0"⟩, ⟨none, inp⟩)
  | (some c, inp) =>
    if isAlphaCh c || c = '_' then
      match lexWhile isIdentContCh (String.singleton c) inp with
      | (lex, c1, inp1) => (⟨keywordType lex, lex⟩, ⟨c1, inp1⟩)
    else if c = '=' then
      match getcS inp with
      | (some '=', inp1) =>
        match getcS inp1 with
        | (n2, inp2) => (⟨.eqOp, "=="⟩, ⟨n2, inp2⟩)
      | (n1, inp1) => (⟨.assignT, "="⟩, ⟨n1, inp1⟩)
    else if c = '{' then singleTok '{' .lbraT inp
    else if c = '}' then singleTok '}' .rbraT inp
    else if c = '(' then singleTok '(' .lparT inp
    else if c = ')' then singleTok ')' .rparT inp
    else if c = ';' then singleTok ';' .scT inp
    else if c = ',' then singleTok ',' .commaT inp
    else if isDigitCh c || c = '.' then
      if c = '.' then
        match lexWhile isDigitCh (String.singleton '.') inp with
        | (lex, c1, inp1) => (⟨.floatLitT, lex⟩, ⟨c1, inp1⟩)
      else
        match lexWhile isDigitCh (String.singleton c) inp with
        | (lex, c1, inp1) =>
          if c1 = some '.' then
            match lexWhile isDigitCh (lex.push '.') inp1 with
            | (lex2, c2, inp2) => (⟨.floatLitT, lex2⟩, ⟨c2, inp2⟩)
          else (⟨.intLitT, lex⟩, ⟨c1, inp1⟩)
    else if c = '&' then twoCharTok '&' "&&" .andOp "&" (.chTok '&') inp
    else if c = '|' then twoCharTok '|' "||" .orOp "|" (.chTok '|') inp
    else if c = '!' then twoCharTok '=' "!=" .neOp "!" .notOp inp
    else if c = '<' then twoCharTok '=' "<=" .leOp "<" .ltOp inp
    else if c = '>' then twoCharTok '=' ">=" .geOp ">" .gtOp inp
    else if c = '/' then
      match h2 : inp with
      | '/' :: inp1 =>
        match h3 : skipComment inp1 with
        | (some nl, inp2) => gettok ⟨some nl, inp2⟩
        | (none, inp2) => (⟨.eofTok, "0"⟩, ⟨none, inp2⟩)
      | c2 :: inp1 => (⟨.divOp, "/"⟩, ⟨some c2, inp1⟩)
      | [] => (⟨.divOp, "/"⟩, ⟨none, []⟩)
    else
      match getcS inp with
      | (n1, inp1) => (⟨.chTok c, String.singleton c⟩, ⟨n1, inp1⟩)
termination_by st.input.length
decreasing_by
  have hs := skipSpaces_input_le st.lastChar st.input
  rw [h1] at hs
  have hc := skipComment_newline_lt inp1 nl inp2 h3
  simp only at hs
  subst h2
  simp at hs
  omega

/-- Iterated calls: gettokN n st performs n+1 calls and returns the
last token and state. -/
def gettokN : Nat → LexState → TokenR × LexState
| 0, st => gettok st
| n+1, st => gettokN n (gettok st).2

/-- The measure that every non-EOF token strictly decreases: remaining
bytes plus one for a pending LastChar. -/
def lexMeasure (st : LexState) : Nat :=
  st.input.length + (if st.lastChar.isSome then 1 else 0)

/-- The lexer state at the start of main: LastChar is the space
sentinel and the whole file is the input. -/
def initLexState (input : List Char) : LexState :=
  ⟨some ' ', input⟩

/-- The Mini-C scalar value types, as a list for bounded
quantification. -/
def scalarTys : List Ty := [Ty.i32, Ty.f32, Ty.i1]

/-! ## Theorems -/

/-- Claim C1: the specification requires that the lowered IR of && and
|| not evaluate the right operand when the left already decides the
outcome.  The code lowers both operands eagerly into the current block
and combines them with a bitwise and/or: for true || side_effect() the
call instruction is emitted unconditionally in straight-line code
containing no terminator or branch at all, so side_effect is always
called.  Moreover the literal scenarios 0 && side_effect() and
1 || side_effect() do not even lower: the int operand of a logical
operator is rejected as a narrowing conversion. -/
theorem C1_logical_or_lowering_is_eager :
    exprCodegen sigSideEffect (SExpr.orE (.boolLit true) (.callE "side_effect"))
      = some (Ty.i1, [Instr.call "side_effect", Instr.orI])
  ∧ (∀ i ∈ [Instr.call "side_effect", Instr.orI], i.isTerminator = false)
  ∧ exprCodegen sigSideEffect (SExpr.orE (.intLit 1) (.callE "side_effect")) = none
  ∧ exprCodegen sigSideEffect (SExpr.andE (.intLit 0) (.callE "side_effect")) = none := by
  refine ⟨rfl, by decide, rfl, rfl⟩

/-- Claim C2, counterexample: the claim says an implicit conversion is
emitted whenever the target is reachable on the widening chain
bool → int → float, so in particular for bool → int.  In all three
positions (assignment RHS, call argument, return value) the code
classifies bool → int as narrowing and rejects it: no conversion is
emitted and a Type error is logged. -/
theorem C2_claim_counterexample :
    widenReachable Ty.i1 Ty.i32 = true
  ∧ assignConvert Ty.i1 Ty.i32 = none
  ∧ argConvert Ty.i1 Ty.i32 = none
  ∧ returnConvert Ty.i1 Ty.i32 = none := by decide

/-- Claim C2, amended: for an assignment RHS, call argument or return
value whose scalar type differs from the target scalar type, an
implicit conversion is emitted iff the source is int and the target is
float (a single sitofp); every other cross-type pair — including
bool → int and bool → float — is rejected with a Type error and no IR
is emitted for the operation. -/
theorem C2_amended_conversion_iff_int_to_float :
    ∀ s ∈ scalarTys, ∀ d ∈ scalarTys, s ≠ d →
      ((assignConvert s d).isSome = (s = Ty.i32 && d = Ty.f32))
    ∧ ((argConvert s d).isSome = (s = Ty.i32 && d = Ty.f32))
    ∧ ((returnConvert s d).isSome = (s = Ty.i32 && d = Ty.f32))
    ∧ (s = Ty.i32 → d = Ty.f32 → assignConvert s d = some [Instr.sitofp]) := by
  decide

/-- Witness for C2's amended theorem at the concrete pair
(int, float). -/
theorem C2_amended_witness :
    Ty.i32 ∈ scalarTys ∧ Ty.f32 ∈ scalarTys ∧ Ty.i32 ≠ Ty.f32
  ∧ (((assignConvert Ty.i32 Ty.f32).isSome = (Ty.i32 = Ty.i32 && Ty.f32 = Ty.f32))
    ∧ ((argConvert Ty.i32 Ty.f32).isSome = (Ty.i32 = Ty.i32 && Ty.f32 = Ty.f32))
    ∧ ((returnConvert Ty.i32 Ty.f32).isSome = (Ty.i32 = Ty.i32 && Ty.f32 = Ty.f32))
    ∧ (Ty.i32 = Ty.i32 → Ty.f32 = Ty.f32 → assignConvert Ty.i32 Ty.f32 = some [Instr.sitofp])) :=
  ⟨by decide, by decide, by decide,
    C2_amended_conversion_iff_int_to_float Ty.i32 (by decide) Ty.f32 (by decide) (by decide)⟩

/-- Claim C3: where the target type is bool, an int or float value is
to be accepted and coerced via a compare against zero.  This holds for
if and while conditions (castToType is called with narrowing allowed
and lowers int to icmp-ne-0 and float to ordered fcmp-ne-0.0), but the
operands of !, && and || are cast with allowNarrowing = false, so an
int or float operand there is rejected with a Type error — the
compiler's own test 06_short_circuit.c (an int operand of &&) fails to
compile. -/
theorem C3_bool_target_coercion_behaviour :
    condCoerce Ty.i32 = some [Instr.icmpNE0]
  ∧ condCoerce Ty.f32 = some [Instr.fcmpONE0]
  ∧ condCoerce Ty.i1 = some []
  ∧ logicalOperandCoerce Ty.i32 = none
  ∧ logicalOperandCoerce Ty.f32 = none := by decide

/-- Claim C4: an extern declaration with zero parameters should be
accepted.  ParseExtern instead returns no prototype whenever the parsed
parameter vector is empty, so both extern int f(void); and
extern int f(); are rejected, while a one-parameter extern is
accepted. -/
theorem C4_zero_param_extern_rejected :
    parseExternDecl 16 [Tok.externT, Tok.intT, Tok.ident "f", Tok.lpar,
      Tok.voidT, Tok.rpar, Tok.semi] = none
  ∧ parseExternDecl 16 [Tok.externT, Tok.intT, Tok.ident "f", Tok.lpar,
      Tok.rpar, Tok.semi] = none
  ∧ parseExternDecl 16 [Tok.externT, Tok.intT, Tok.ident "f", Tok.lpar,
      Tok.intT, Tok.ident "x", Tok.rpar, Tok.semi]
      = some ⟨"f", "int", [⟨"x", "int"⟩]⟩ := by
  refine ⟨rfl, rfl, rfl⟩

/-- Claim C5: every emitted basic block should end in exactly one
terminator.  Lowering if (true) { return 1; } return 0; in an int
function emits the unconditional branch to the merge block after the
then-body even though that body already ended in a ret, so the then
block holds two terminators and an instruction after a terminator.  The
fall-through synthesis half of the claim does hold: a non-void function
whose body leaves no terminator receives a zero-valued return of its
declared type. -/
theorem C5_block_termination_behaviour :
    functionCodegen Ty.i32 [MStmt.sif true [MStmt.sret 1] none, MStmt.sret 0]
      = some [⟨"entry", [.condbr "then0" "ifcont2"]⟩,
              ⟨"then0", [.retC (.ci32 1), .br "ifcont2"]⟩,
              ⟨"ifcont2", [.retC (.ci32 0)]⟩]
  ∧ (functionCodegen Ty.i32 [MStmt.sif true [MStmt.sret 1] none, MStmt.sret 0]).map
      funcWellTerminated = some false
  ∧ functionCodegen Ty.i32 [] = some [⟨"entry", [.retC (.ci32 0)]⟩]
  ∧ functionCodegen Ty.f32 [] = some [⟨"entry", [.retC .cf32zero]⟩]
  ∧ functionCodegen Ty.i1 [] = some [⟨"entry", [.retC (.ci1 false)]⟩]
  ∧ functionCodegen Ty.void [] = some [⟨"entry", [.retVoid]⟩] := by
  refine ⟨rfl, rfl, rfl, rfl, rfl, rfl⟩

/-- Claim C6, counterexample: the claim says a float-typed subscript is
rejected whether the access is a read or the target of an assignment.
On the assignment-target path the code instead converts the float index
to int with an fptosi and proceeds. -/
theorem C6_claim_counterexample :
    assignIndexLower Ty.f32 = some [Instr.fptosi] := by decide

/-- Claim C6, amended: on a subscript read a float index is rejected
with a Type error and no element access is emitted, and a bool index is
widened to int; on the target of an array assignment a float index is
silently converted to int with fptosi, and a bool index is likewise
widened. -/
theorem C6_amended_index_handling :
    readIndexLower Ty.f32 = none
  ∧ assignIndexLower Ty.f32 = some [Instr.fptosi]
  ∧ readIndexLower Ty.i1 = some [Instr.zextI]
  ∧ assignIndexLower Ty.i1 = some [Instr.zextI]
  ∧ readIndexLower Ty.i32 = some []
  ∧ assignIndexLower Ty.i32 = some [] := by decide

/-- Claim C8: an otherwise error-free program with no function named
main yields exactly one Semantic error, no output.ll, and a non-zero
exit. -/
theorem C8_missing_main (funcs : List String) (h : funcs.contains "main" = false) :
    driverAfterParse [] funcs = ([ErrClass.semantic], 1, false) := by
  have h2 : "main" ∉ funcs := by simpa using h
  simp [driverAfterParse, h2]

/-- Witness for C8 on a program defining even and odd but no main. -/
theorem C8_missing_main_witness :
    (["even", "odd"].contains "main" = false)
  ∧ driverAfterParse [] ["even", "odd"] = ([ErrClass.semantic], 1, false) :=
  ⟨by decide, C8_missing_main ["even", "odd"] (by decide)⟩

/-- Claim C10: every declared scalar variable starts at zero: a local
int, float or bool declaration stores the zero of its declared type
into the fresh alloca, and a global scalar is created with the same
zero initializer. -/
theorem C10_scalar_zero_init :
    ∀ ty ∈ scalarTys,
      ∃ z, zeroConst ty = some z
        ∧ localScalarDeclLower ty = [Instr.allocaI ty, Instr.storeC z]
        ∧ globalScalarInit ty = some z := by
  intro ty hty
  fin_cases hty
  · exact ⟨Const.ci32 0, rfl, rfl, rfl⟩
  · exact ⟨Const.cf32zero, rfl, rfl, rfl⟩
  · exact ⟨Const.ci1 false, rfl, rfl, rfl⟩

/-- Witness for C10 at the concrete type int. -/
theorem C10_scalar_zero_init_witness :
    Ty.i32 ∈ scalarTys
  ∧ ∃ z, zeroConst Ty.i32 = some z
      ∧ localScalarDeclLower Ty.i32 = [Instr.allocaI Ty.i32, Instr.storeC z]
      ∧ globalScalarInit Ty.i32 = some z :=
  ⟨by decide, C10_scalar_zero_init Ty.i32 (by decide)⟩

/-- A successful ParseArrayAccess always returns an array-access node,
never an assignment node. -/
theorem parseArrayAcc_root (fuel : Nat) (x : String) (ts : List Tok) (r : Ast)
    (rest : List Tok) (h : parseArrayAcc fuel x ts = some (r, rest)) :
    r.isIdentAssign = false := by
  cases fuel with
  | zero => simp [parseArrayAcc] at h
  | succ n =>
    simp only [parseArrayAcc] at h
    split at h
    · split at h
      · split at h
        · cases h; rfl
        · exact absurd h (by simp)
      · exact absurd h (by simp)
    · exact absurd h (by simp)

/-- A successful ParsePrimaryExpr on input starting with an identifier
returns a variable, call or array-access node, never an assignment
node. -/
theorem parsePrimaryExpr_root (fuel : Nat) (x : String) (ts : List Tok) (r : Ast)
    (rest : List Tok) (h : parsePrimaryExpr fuel (Tok.ident x :: ts) = some (r, rest)) :
    r.isIdentAssign = false := by
  cases fuel with
  | zero => simp [parsePrimaryExpr] at h
  | succ n =>
    cases ts with
    | nil =>
      simp only [parsePrimaryExpr] at h
      cases h; rfl
    | cons t ts2 =>
      cases t <;> simp only [parsePrimaryExpr] at h
      case lpar =>
        split at h
        · cases h; rfl
        · exact absurd h (by simp)
      case lbox => exact parseArrayAcc_root n x _ r rest h
      all_goals (cases h; rfl)

/-- A successful ParseUnaryExpr on input starting with an identifier
has a non-assignment root. -/
theorem parseUnaryExpr_root (fuel : Nat) (x : String) (ts : List Tok) (r : Ast)
    (rest : List Tok) (h : parseUnaryExpr fuel (Tok.ident x :: ts) = some (r, rest)) :
    r.isIdentAssign = false := by
  cases fuel with
  | zero => simp [parseUnaryExpr] at h
  | succ n =>
    simp only [parseUnaryExpr] at h
    exact parsePrimaryExpr_root n x ts r rest h

/-- The while-loop of ParseBinaryExpr preserves a non-assignment root:
it either returns its left operand unchanged or wraps it in binary
nodes. -/
theorem levelLoop_root (fuel : Nat) : ∀ (lvl : Nat) (lhs : Ast) (ts : List Tok)
    (r : Ast) (rest : List Tok), lhs.isIdentAssign = false →
    levelLoop fuel lvl lhs ts = some (r, rest) → r.isIdentAssign = false := by
  induction fuel with
  | zero => intro lvl lhs ts r rest hl h; simp [levelLoop] at h
  | succ n ih =>
    intro lvl lhs ts r rest hl h
    simp only [levelLoop] at h
    split at h
    · split at h
      · split at h
        · refine ih lvl _ _ r rest ?_ h
          rfl
        · exact absurd h (by simp)
      · cases h; exact hl
    · cases h; exact hl

/-- Every level of the precedence ladder, on input starting with an
identifier, returns a node whose root is not an assignment. -/
theorem parseLevel_root (fuel : Nat) : ∀ (lvl : Nat) (x : String) (ts : List Tok)
    (r : Ast) (rest : List Tok),
    parseLevel fuel lvl (Tok.ident x :: ts) = some (r, rest) →
    r.isIdentAssign = false := by
  induction fuel with
  | zero => intro lvl x ts r rest h; simp [parseLevel] at h
  | succ n ih =>
    intro lvl x ts r rest h
    simp only [parseLevel] at h
    split at h
    · rename_i lhs rest1 heq
      have hl : lhs.isIdentAssign = false := by
        split at heq
        · exact parseUnaryExpr_root n x ts lhs rest1 heq
        · exact ih (lvl+1) x ts lhs rest1 heq
      exact levelLoop_root n lvl lhs rest1 r rest hl h
    · exact absurd h (by simp)

/-- Claim C7: for an identifier x at the start of an expression, the
input parses as an identifier-assignment iff the token immediately
after x is ASSIGN; otherwise the result comes from the or-expression
ladder (so x begins a variable reference, call or subscript), and if
that result is an array access with ASSIGN as the current token it is
promoted to an array assignment, else it is returned unchanged. -/
theorem C7_assignment_disambiguation (n : Nat) (x : String) (ts : List Tok)
    (r : Ast) (rest : List Tok)
    (h : parseExper (n+1) (Tok.ident x :: ts) = some (r, rest)) :
    (r.isIdentAssign = true ↔ ts.head? = some Tok.assign)
  ∧ (ts.head? ≠ some Tok.assign →
      ∃ lhs rest1, parseLevel n 0 (Tok.ident x :: ts) = some (lhs, rest1)
        ∧ ((∃ a idxs rest2 rhs, lhs = Ast.arrayAccess a idxs
              ∧ rest1 = Tok.assign :: rest2 ∧ r = Ast.arrayAssign a idxs rhs)
           ∨ (r = lhs ∧ rest = rest1))) := by
  by_cases hts : ts.head? = some Tok.assign
  · obtain ⟨ts2, rfl⟩ : ∃ ts2, ts = Tok.assign :: ts2 := by
      cases ts with
      | nil => simp at hts
      | cons t ts2 => cases t <;> simp_all
    simp only [parseExper] at h
    split at h
    · cases h
      refine ⟨by simp [Ast.isIdentAssign], fun hne => absurd rfl hne⟩
    · exact absurd h (by simp)
  · have hred : parseExper (n+1) (Tok.ident x :: ts) =
        (match parseLevel n 0 (Tok.ident x :: ts) with
         | some (lhs, rest) =>
           match lhs, rest with
           | .arrayAccess a idxs, .assign :: rest1 =>
             (match parseExper n rest1 with
              | some (rhs, rest2) => some (.arrayAssign a idxs rhs, rest2)
              | none => none)
           | _, _ => some (lhs, rest)
         | none => none) := by
      cases ts with
      | nil => rfl
      | cons t ts2 => cases t <;> first | rfl | simp_all
    rw [hred] at h
    split at h
    · rename_i lhs rest1 hlevel
      have hl : lhs.isIdentAssign = false :=
        parseLevel_root n 0 x ts lhs rest1 hlevel
      split at h
      · rename_i a idxs rest2
        split at h
        · rename_i rhs rest3 hrhs
          cases h
          refine ⟨by simp [Ast.isIdentAssign, hts], fun _ => ?_⟩
          exact ⟨Ast.arrayAccess a idxs, Tok.assign :: rest2, hlevel,
            .inl ⟨a, idxs, rest2, rhs, rfl, rfl, rfl⟩⟩
        · exact absurd h (by simp)
      · cases h
        refine ⟨by simp [hl, hts], fun _ => ?_⟩
        exact ⟨r, rest, hlevel, .inr ⟨rfl, rfl⟩⟩
    · exact absurd h (by simp)

/-- Witness for C7 at the concrete input x = 5: the parse succeeds as
an identifier-assignment and the token after x is indeed ASSIGN. -/
theorem C7_assignment_disambiguation_witness :
    ((Ast.assignA "x" (Ast.intLit 5)).isIdentAssign = true
      ↔ [Tok.assign, Tok.intLit 5].head? = some Tok.assign)
  ∧ ([Tok.assign, Tok.intLit 5].head? ≠ some Tok.assign →
      ∃ lhs rest1, parseLevel 9 0 (Tok.ident "x" :: [Tok.assign, Tok.intLit 5])
          = some (lhs, rest1)
        ∧ ((∃ a idxs rest2 rhs, lhs = Ast.arrayAccess a idxs
              ∧ rest1 = Tok.assign :: rest2
              ∧ Ast.assignA "x" (Ast.intLit 5) = Ast.arrayAssign a idxs rhs)
           ∨ (Ast.assignA "x" (Ast.intLit 5) = lhs ∧ ([] : List Tok) = rest1))) :=
  C7_assignment_disambiguation 9 "x" [Tok.assign, Tok.intLit 5]
    (Ast.assignA "x" (Ast.intLit 5)) [] rfl


/-- Skipping whitespace never increases the pending-byte measure. -/
theorem skipSpaces_lexMeasure (c : Option Char) (i : List Char) :
    lexMeasure ⟨(skipSpaces c i).1, (skipSpaces c i).2⟩ ≤ lexMeasure ⟨c, i⟩ := by
  induction i generalizing c with
  | nil =>
    simp only [skipSpaces, lexMeasure]
    split <;> simp
  | cons h t ih =>
    simp only [skipSpaces]
    split
    · refine le_trans (ih (some h)) ?_
      simp [lexMeasure]
    · exact Nat.le_refl _

/-- One getc consumes the pending character. -/
theorem getcS_lexMeasure (i : List Char) :
    lexMeasure ⟨(getcS i).1, (getcS i).2⟩ ≤ i.length := by
  cases i <;> simp [getcS, lexMeasure]

/-- A read-while loop leaves at most the input it was given. -/
theorem lexWhile_lexMeasure (p : Char → Bool) (acc : String) (i : List Char) :
    lexMeasure ⟨(lexWhile p acc i).2.1, (lexWhile p acc i).2.2⟩ ≤ i.length := by
  induction i generalizing acc with
  | nil => simp [lexWhile, lexMeasure]
  | cons h t ih =>
    simp only [lexWhile]
    split
    · exact le_trans (ih _) (Nat.le_succ _)
    · simp [lexMeasure]

/-- The comment loop consumes the newline it stops at. -/
theorem skipComment_lexMeasure (i : List Char) :
    lexMeasure ⟨(skipComment i).1, (skipComment i).2⟩ ≤ i.length := by
  induction i with
  | nil => simp [skipComment, lexMeasure]
  | cons h t ih =>
    simp only [skipComment]
    split
    · simp [lexMeasure]
    · exact le_trans ih (Nat.le_succ _)

theorem singleTok_lexMeasure (c : Char) (tt : TokType) (inp : List Char) :
    lexMeasure (singleTok c tt inp).2 ≤ inp.length := by
  cases inp <;> simp [singleTok, getcS, lexMeasure]

theorem twoCharTok_lexMeasure (s2 : Char) (tl : String) (tT : TokType)
    (ol : String) (oT : TokType) (inp : List Char) :
    lexMeasure (twoCharTok s2 tl tT ol oT inp).2 ≤ inp.length := by
  cases inp with
  | nil => simp [twoCharTok, getcS, lexMeasure]
  | cons h t =>
    simp only [twoCharTok, getcS]
    split
    · cases t <;> simp [getcS, lexMeasure]
    · simp [lexMeasure]

theorem measure_step {a b n : Nat} (h1 : a ≤ b) (h2 : b + 1 ≤ n) : a < n := by omega

/-- Skipping whitespace from the EOF sentinel changes nothing. -/
theorem skipSpaces_none (i : List Char) : skipSpaces none i = (none, i) := by
  cases i <;> simp [skipSpaces, isSpaceO]

/-- Once LastChar is the EOF sentinel, gettok returns the EOF token and
leaves the state unchanged: the end of input is never consumed past. -/
theorem gettok_none (i : List Char) : gettok ⟨none, i⟩ = (⟨.eofTok, "0"⟩, ⟨none, i⟩) := by
  rw [gettok.eq_def]
  split
  · rename_i inp heq
    rw [skipSpaces_none] at heq
    cases heq
    rfl
  · rename_i c inp heq
    rw [skipSpaces_none] at heq
    simp at heq

/-- handleSingleChar always returns its fixed token. -/
theorem singleTok_fst (c : Char) (tt : TokType) (inp : List Char) :
    (singleTok c tt inp).1 = ⟨tt, String.singleton c⟩ := by
  cases inp <;> rfl

/-- handleTwoChar returns one of its two fixed token kinds. -/
theorem twoCharTok_type_ne (s2 : Char) (tl : String) (tT : TokType) (ol : String)
    (oT : TokType) (inp : List Char) (h1 : tT ≠ .eofTok) (h2 : oT ≠ .eofTok) :
    (twoCharTok s2 tl tT ol oT inp).1.type ≠ .eofTok := by
  cases inp with
  | nil => simpa [twoCharTok, getcS] using h2
  | cons h t =>
    simp only [twoCharTok, getcS]
    split
    · cases t <;> simpa using h1
    · simpa using h2

/-- The keyword table never produces the EOF token. -/
theorem keywordType_ne_eof (s : String) : keywordType s ≠ .eofTok := by
  unfold keywordType
  repeat' split
  all_goals (intro h; cases h)

/-- Every gettok call either returns the EOF token with the EOF
sentinel latched, or strictly decreases the pending-byte measure. -/
theorem gettok_progress (st : LexState) :
    ((gettok st).1.type = TokType.eofTok ∧ (gettok st).2.lastChar = none)
    ∨ (lexMeasure (gettok st).2 < lexMeasure st ∧ (gettok st).1.type ≠ TokType.eofTok) := by
  generalize hN : st.input.length = N
  induction N using Nat.strong_induction_on generalizing st with
  | _ N ih =>
  have hm0 := skipSpaces_lexMeasure st.lastChar st.input
  have hi0 := skipSpaces_input_le st.lastChar st.input
  rw [gettok.eq_def]
  split
  · exact Or.inl ⟨rfl, rfl⟩
  · rename_i c inp heq
    rw [heq] at hm0 hi0
    have hm : inp.length + 1 ≤ lexMeasure st := by simpa [lexMeasure] using hm0
    have hi : inp.length ≤ N := by simpa [hN] using hi0
    by_cases hA : (isAlphaCh c || decide (c = '_')) = true
    · rw [if_pos hA]
      split
      rename_i lex c1 inp1 hlw
      have h1 := lexWhile_lexMeasure isIdentContCh (String.singleton c) inp
      rw [hlw] at h1
      first
      | exact Or.inr ⟨measure_step h1 hm, keywordType_ne_eof lex⟩
      | exact Or.inr ⟨measure_step h1 hm, by simp⟩
    · rw [if_neg hA]
      by_cases hE : c = '='
      · rw [if_pos hE]
        split
        · -- two-character ==
          rename_i inp1 heq2
          split
          rename_i n2 inp2 hg2
          have h1 := getcS_lexMeasure inp1
          rw [hg2] at h1
          have h2 := getcS_lexMeasure inp
          rw [heq2] at h2
          have h2b : inp1.length + 1 ≤ inp.length := by simpa [lexMeasure] using h2
          exact Or.inr ⟨measure_step (le_trans h1 (Nat.le_of_succ_le h2b)) hm, by simp⟩
        · -- plain assignment
          rename_i n1 inp1 hne heq2
          have h1 := getcS_lexMeasure inp
          rw [heq2] at h1
          first
          | exact Or.inr ⟨measure_step h1 hm, keywordType_ne_eof lex⟩
          | exact Or.inr ⟨measure_step h1 hm, by simp⟩
      · rw [if_neg hE]
        by_cases hS1 : c = '{'
        · rw [if_pos hS1]
          exact Or.inr ⟨measure_step (singleTok_lexMeasure '{' TokType.lbraT inp) hm, by rw [singleTok_fst]; simp⟩
        · rw [if_neg hS1]
          by_cases hS2 : c = '}'
          · rw [if_pos hS2]
            exact Or.inr ⟨measure_step (singleTok_lexMeasure '}' TokType.rbraT inp) hm, by rw [singleTok_fst]; simp⟩
          · rw [if_neg hS2]
            by_cases hS3 : c = '('
            · rw [if_pos hS3]
              exact Or.inr ⟨measure_step (singleTok_lexMeasure '(' TokType.lparT inp) hm, by rw [singleTok_fst]; simp⟩
            · rw [if_neg hS3]
              by_cases hS4 : c = ')'
              · rw [if_pos hS4]
                exact Or.inr ⟨measure_step (singleTok_lexMeasure ')' TokType.rparT inp) hm, by rw [singleTok_fst]; simp⟩
              · rw [if_neg hS4]
                by_cases hS5 : c = ';'
                · rw [if_pos hS5]
                  exact Or.inr ⟨measure_step (singleTok_lexMeasure ';' TokType.scT inp) hm, by rw [singleTok_fst]; simp⟩
                · rw [if_neg hS5]
                  by_cases hS6 : c = ','
                  · rw [if_pos hS6]
                    exact Or.inr ⟨measure_step (singleTok_lexMeasure ',' TokType.commaT inp) hm, by rw [singleTok_fst]; simp⟩
                  · rw [if_neg hS6]
                    by_cases hD : (isDigitCh c || decide (c = '.')) = true
                    · rw [if_pos hD]
                      by_cases hDot : c = '.'
                      · rw [if_pos hDot]
                        split
                        rename_i lex c1 inp1 hlw
                        have h1 := lexWhile_lexMeasure isDigitCh (String.singleton '.') inp
                        rw [hlw] at h1
                        first
                        | exact Or.inr ⟨measure_step h1 hm, keywordType_ne_eof lex⟩
                        | exact Or.inr ⟨measure_step h1 hm, by simp⟩
                      · rw [if_neg hDot]
                        split
                        rename_i lex c1 inp1 hlw
                        have h1 := lexWhile_lexMeasure isDigitCh (String.singleton c) inp
                        rw [hlw] at h1
                        by_cases hFrac : c1 = some '.'
                        · rw [if_pos hFrac]
                          split
                          rename_i lex2 c2 inp2 hlw2
                          have h2 := lexWhile_lexMeasure isDigitCh (lex.push '.') inp1
                          rw [hlw2] at h2
                          have h1b : inp1.length + 1 ≤ inp.length := by
                            rw [hFrac] at h1
                            simpa [lexMeasure] using h1
                          exact Or.inr ⟨measure_step (le_trans h2 (Nat.le_of_succ_le h1b)) hm, by simp⟩
                        · rw [if_neg hFrac]
                          first
                          | exact Or.inr ⟨measure_step h1 hm, keywordType_ne_eof lex⟩
                          | exact Or.inr ⟨measure_step h1 hm, by simp⟩
                    · rw [if_neg hD]
                      by_cases hT1 : c = '&'
                      · rw [if_pos hT1]
                        exact Or.inr ⟨measure_step (twoCharTok_lexMeasure '&' "&&" TokType.andOp "&" (TokType.chTok '&') inp) hm,
                          twoCharTok_type_ne '&' "&&" TokType.andOp "&" (TokType.chTok '&') inp (by decide) (by decide)⟩
                      · rw [if_neg hT1]
                        by_cases hT2 : c = '|'
                        · rw [if_pos hT2]
                          exact Or.inr ⟨measure_step (twoCharTok_lexMeasure '|' "||" TokType.orOp "|" (TokType.chTok '|') inp) hm,
                            twoCharTok_type_ne '|' "||" TokType.orOp "|" (TokType.chTok '|') inp (by decide) (by decide)⟩
                        · rw [if_neg hT2]
                          by_cases hT3 : c = '!'
                          · rw [if_pos hT3]
                            exact Or.inr ⟨measure_step (twoCharTok_lexMeasure '=' "!=" TokType.neOp "!" TokType.notOp inp) hm,
                              twoCharTok_type_ne '=' "!=" TokType.neOp "!" TokType.notOp inp (by decide) (by decide)⟩
                          · rw [if_neg hT3]
                            by_cases hT4 : c = '<'
                            · rw [if_pos hT4]
                              exact Or.inr ⟨measure_step (twoCharTok_lexMeasure '=' "<=" TokType.leOp "<" TokType.ltOp inp) hm,
                                twoCharTok_type_ne '=' "<=" TokType.leOp "<" TokType.ltOp inp (by decide) (by decide)⟩
                            · rw [if_neg hT4]
                              by_cases hT5 : c = '>'
                              · rw [if_pos hT5]
                                exact Or.inr ⟨measure_step (twoCharTok_lexMeasure '=' ">=" TokType.geOp ">" TokType.gtOp inp) hm,
                                  twoCharTok_type_ne '=' ">=" TokType.geOp ">" TokType.gtOp inp (by decide) (by decide)⟩
                              · rw [if_neg hT5]
                                by_cases hSl : c = '/'
                                · rw [if_pos hSl]
                                  split
                                  · -- comment
                                    rename_i inp1 heqI
                                    split
                                    · -- ends at a newline: restart the scan
                                      rename_i nl inp2 heqC
                                      have hsc := skipComment_lexMeasure inp1
                                      rw [heqC] at hsc
                                      have hsc2 : inp2.length + 1 ≤ inp1.length := by simpa [lexMeasure] using hsc
                                      have hlen : inp2.length < N := by
                                        simp only [List.length_cons] at hi
                                        omega
                                      have hP := ih inp2.length hlen ⟨some nl, inp2⟩ rfl
                                      rcases hP with hl | ⟨hr, hrne⟩
                                      · exact Or.inl hl
                                      · refine Or.inr ⟨lt_trans hr ?_, hrne⟩
                                        simp only [List.length_cons] at hm
                                        have hgoal : lexMeasure ⟨some nl, inp2⟩ = inp2.length + 1 := by simp [lexMeasure]
                                        rw [hgoal]
                                        omega
                                    · exact Or.inl ⟨rfl, rfl⟩
                                  · -- division
                                    rename_i c2 inp1 hne heqI
                                    refine Or.inr ⟨measure_step ?_ hm, by simp⟩
                                    simp [lexMeasure]
                                  · -- '/' at end of input
                                    refine Or.inr ⟨measure_step ?_ hm, by simp⟩
                                    simp [lexMeasure]
                                · rw [if_neg hSl]
                                  split
                                  rename_i n1 inp1 hgc
                                  have h1 := getcS_lexMeasure inp
                                  rw [hgc] at h1
                                  first
                                  | exact Or.inr ⟨measure_step h1 hm, keywordType_ne_eof lex⟩
                                  | exact Or.inr ⟨measure_step h1 hm, by simp⟩
/-- Iterating from an EOF-latched state stays at the EOF token. -/
theorem gettokN_none (n : Nat) (i : List Char) :
    gettokN n ⟨none, i⟩ = (⟨.eofTok, "0"⟩, ⟨none, i⟩) := by
  induction n with
  | zero => exact gettok_none i
  | succ m ih =>
    show gettokN m (gettok ⟨none, i⟩).2 = _
    rw [gettok_none]
    exact ih

/-- Once an iteration count returns the EOF token, one more call still
does. -/
theorem gettokN_eof_succ (n : Nat) : ∀ st : LexState,
    (gettokN n st).1.type = TokType.eofTok →
    (gettokN (n+1) st).1.type = TokType.eofTok := by
  induction n with
  | zero =>
    intro st h
    have hc : (gettok st).2.lastChar = none := by
      rcases gettok_progress st with ⟨_, hc⟩ | ⟨_, hne⟩
      · exact hc
      · exact absurd h hne
    show (gettokN 0 (gettok st).2).1.type = _
    rcases hst : (gettok st).2 with ⟨lc, ii⟩
    rw [hst] at hc
    simp only at hc
    subst hc
    rw [gettokN_none]
  | succ m ih =>
    intro st h
    exact ih (gettok st).2 h

/-- Returning the EOF token is stable under extra iterations. -/
theorem gettokN_eof_mono (m n : Nat) (st : LexState) (hmn : m ≤ n)
    (h : (gettokN m st).1.type = TokType.eofTok) :
    (gettokN n st).1.type = TokType.eofTok := by
  induction n, hmn using Nat.le_induction with
  | base => exact h
  | succ n hmn ih => exact gettokN_eof_succ n st ih

/-- After at most lexMeasure-many further calls, the lexer has reached
the EOF token. -/
theorem gettok_eventually_eof (st : LexState) :
    (gettokN (lexMeasure st) st).1.type = TokType.eofTok := by
  generalize hN : lexMeasure st = N
  induction N using Nat.strong_induction_on generalizing st with
  | _ N ih =>
  rcases gettok_progress st with ⟨he, hc⟩ | ⟨hdec, hne⟩
  · cases N with
    | zero => exact he
    | succ k =>
      show (gettokN k (gettok st).2).1.type = _
      rcases hst : (gettok st).2 with ⟨lc, ii⟩
      rw [hst] at hc
      simp only at hc
      subst hc
      rw [gettokN_none]
  · have hlt : lexMeasure (gettok st).2 < N := hN ▸ hdec
    have hstep := ih (lexMeasure (gettok st).2) hlt (gettok st).2 rfl
    cases N with
    | zero => exact absurd hlt (Nat.not_lt_zero _)
    | succ k =>
      show (gettokN k (gettok st).2).1.type = _
      exact gettokN_eof_mono (lexMeasure (gettok st).2) k (gettok st).2 (by omega) hstep

/-- Claim C9: for any input byte sequence the lexer, started as main
starts it (LastChar the space sentinel, the file as input), reaches the
distinguished EOF token within input-length plus one further calls —
every call is total by construction — and once the end of input has
been reached gettok returns the EOF token again without consuming
anything. -/
theorem C9_lexer_totality :
    (∀ input : List Char,
      (gettokN (input.length + 1) (initLexState input)).1.type = TokType.eofTok)
  ∧ ∀ i : List Char, gettok ⟨none, i⟩ = (⟨TokType.eofTok, "0"⟩, ⟨none, i⟩) :=
  ⟨fun input => gettok_eventually_eof (initLexState input), gettok_none⟩

end MiniC
